import Mathlib

/-!
Shallow embedding of the browser-wallet scanner's core pipeline
(filtering/deduplication, the resumable scan loop, balance aggregation,
account extraction, key derivation, and the retry policy), with theorems
checking the specification's claims against the embedded code.

Conventions of the embedding:
* JavaScript numbers holding monetary values and parsed balances are
  modelled as rationals (`ℚ`); a decimal string fed to `parseFloat` is
  modelled by its rational value.
* A possibly-`undefined`/`null` field is an `Option`; JavaScript
  truthiness of a string is "present and non-empty", of a number
  "present and non-zero", and comparisons against `undefined` are
  `false` (NaN semantics).
* External libraries (ethers, bip39, ed25519-hd-key, network clients)
  are injected as function parameters: the embedded code is everything
  the repository itself does around them.
-/

namespace WalletScanner

/-- JS `String.prototype.toLowerCase`, modelled character-wise. -/
def jsToLower (s : String) : String :=
  String.mk (s.data.map Char.toLower)

/-- JS truthiness of an optional string (`undefined`/`null`/`""` are falsy). -/
def jsTruthyStr : Option String → Bool
  | none => false
  | some s => !s.isEmpty

/-- JS `a > b` on two possibly-undefined numbers: any missing operand
    makes the comparison `false` (NaN semantics). -/
def jsGtOpt : Option ℚ → Option ℚ → Bool
  | some a, some b => decide (b < a)
  | _, _ => false

/-- One listed ERC-20 token in a persisted snapshot (`balance` is the
    parsed value of the decimal string). -/
structure ErcToken where
  contract : String
  balance : ℚ
deriving DecidableEq

/-- One listed NFT collection in a persisted snapshot. -/
structure NftCol where
  contract : String
  count : Nat
deriving DecidableEq

/-- The parsed native balance of one network. -/
structure NativeBal where
  balance : ℚ
deriving DecidableEq

/-- Per-network data inside `wallet.balances` (shape produced by
    `fetchAllBalances` in src/src/evm/balanceFetcher.js). A field absent in
    the JSON is the empty list / `none`. -/
structure NetData where
  native : Option NativeBal
  erc20Tokens : List ErcToken
  nfts : List NftCol
deriving DecidableEq

/-- The `balances` object of a scanned EVM wallet: the per-network entries
    plus the numeric `totalUSD` key (which the iteration loops skip via
    `if (network === 'totalUSD') continue`; here it is a separate field). -/
structure BalObj where
  networks : List (String × NetData)
  totalUSD : Option ℚ
deriving DecidableEq

/-- A wallet record as read by src/filterWallets.js: address, optional
    decrypted mnemonic, the scan's top-level `totalUSD`, and the balances
    object. -/
structure Wallet where
  address : String
  mnemonic : Option String
  totalUSD : Option ℚ
  balances : Option BalObj
deriving DecidableEq

/-- `hasBalanceEVM` from src/filterWallets.js lines 27-62. -/
def hasBalanceEVM (w : Wallet) : Bool :=
  (match w.totalUSD with
   | some v => decide (0 < v)
   | none => false) ||
  (match w.balances with
   | none => false
   | some b => b.networks.any fun kd =>
       (match kd.2.native with
        | some nb => decide (0 < nb.balance)
        | none => false) ||
       kd.2.erc20Tokens.any (fun t => decide (0 < t.balance)) ||
       !kd.2.nfts.isEmpty)

/-- The has-balance predicate as the specification words it: total fiat
    value > 0, or any native/token quantity > 0, or any collectible
    count > 0. -/
def hasBalanceClaim (w : Wallet) : Bool :=
  decide (0 < w.totalUSD.getD 0) ||
  (match w.balances with
   | none => false
   | some b => b.networks.any fun kd =>
       (match kd.2.native with
        | some nb => decide (0 < nb.balance)
        | none => false) ||
       kd.2.erc20Tokens.any (fun t => decide (0 < t.balance)) ||
       kd.2.nfts.any (fun c => decide (0 < c.count)))

/-- Well-formedness of a record's collectible entries: every listed NFT
    collection has a positive count (the balance fetcher only emits a
    collection when its on-chain balance is strictly positive). -/
def wfNftCounts (w : Wallet) : Bool :=
  match w.balances with
  | none => true
  | some b => b.networks.all fun kd => kd.2.nfts.all (fun c => decide (0 < c.count))

/-- The filter step of `main` in src/filterWallets.js line 417:
    `input.wallets.filter(hasBalance)`. -/
def filterWallets (ws : List Wallet) : List Wallet :=
  ws.filter hasBalanceEVM

/-- JS `Map.set` on an association list: updating an existing key keeps
    its position, a new key is appended (JS `Map` preserves insertion
    order of keys). -/
def mapSet {α : Type} : List (String × α) → String → α → List (String × α)
  | [], k, v => [(k, v)]
  | (k₀, v₀) :: rest, k, v =>
      if k₀ = k then (k₀, v) :: rest else (k₀, v₀) :: mapSet rest k v

/-- JS `Map.get` / plain-object key lookup on an association list. -/
def mapGet {α : Type} : List (String × α) → String → Option α
  | [], _ => none
  | (k₀, v₀) :: rest, k => if k₀ = k then some v₀ else mapGet rest k

/-- One iteration of the `removeDuplicates` loop body
    (src/filterWallets.js lines 113-130). -/
def dedupStep (m : List (String × Wallet)) (w : Wallet) : List (String × Wallet) :=
  let addressKey := jsToLower w.address
  match mapGet m addressKey with
  | none => mapSet m addressKey w
  | some existing =>
      if jsTruthyStr w.mnemonic && !jsTruthyStr existing.mnemonic then
        mapSet m addressKey w
      else if jsGtOpt w.totalUSD existing.totalUSD then
        mapSet m addressKey w
      else m

/-- `removeDuplicates` from src/filterWallets.js lines 110-133 (the same
    function appears verbatim in src/solana/filterWallets.js lines 48-71). -/
def removeDuplicates (ws : List Wallet) : List Wallet :=
  (ws.foldl dedupStep []).map (·.2)

/-- A record carrying a decrypted mnemonic and a low fiat value. -/
def walletWithMnemonic : Wallet :=
  { address := "0xAbc", mnemonic := some "test mnemonic words",
    totalUSD := some 10, balances := none }

/-- A record for the same address (different case), no mnemonic, higher
    fiat value. -/
def walletNoMnemonic : Wallet :=
  { address := "0xABC", mnemonic := none,
    totalUSD := some 20, balances := none }

/-- C1: the deduplication filter does NOT always keep the record carrying
    seed-phrase material: when the mnemonic-bearing record arrives first
    and a higher-value record without a mnemonic arrives second, the
    `else if (wallet.totalUSD > existing.totalUSD)` branch replaces it,
    so the kept record has no mnemonic — contradicting the code's own
    comment "keep the one with more data (prefer one with mnemonic)" and
    the specification's tie-break rule. -/
theorem c1_dedup_drops_mnemonic_record :
    removeDuplicates [walletWithMnemonic, walletNoMnemonic] = [walletNoMnemonic] ∧
    walletNoMnemonic.mnemonic = none ∧
    walletWithMnemonic.mnemonic ≠ none ∧
    jsToLower walletWithMnemonic.address = jsToLower walletNoMnemonic.address := by
  refine ⟨by decide, rfl, by decide, by decide⟩

/-- On a list of collections that all have a positive count, "some
    collection has a positive count" coincides with "the list is
    non-empty". -/
lemma nfts_any_pos_eq_nonempty (L : List NftCol)
    (h : L.all (fun c => decide (0 < c.count)) = true) :
    L.any (fun c => decide (0 < c.count)) = !L.isEmpty := by
  cases L with
  | nil => rfl
  | cons c cs =>
      simp only [List.all_cons, Bool.and_eq_true] at h
      simp [List.any_cons, h.1]

/-- Lifting `nfts_any_pos_eq_nonempty` over the per-network iteration. -/
lemma netsAny_claim_eq (l : List (String × NetData))
    (h : l.all (fun kd => kd.2.nfts.all fun c => decide (0 < c.count)) = true) :
    (l.any fun kd =>
       (match kd.2.native with
        | some nb => decide (0 < nb.balance)
        | none => false) ||
       kd.2.erc20Tokens.any (fun t => decide (0 < t.balance)) ||
       kd.2.nfts.any (fun c => decide (0 < c.count)))
    = (l.any fun kd =>
       (match kd.2.native with
        | some nb => decide (0 < nb.balance)
        | none => false) ||
       kd.2.erc20Tokens.any (fun t => decide (0 < t.balance)) ||
       !kd.2.nfts.isEmpty) := by
  induction l with
  | nil => rfl
  | cons kd rest ih =>
      simp only [List.all_cons, Bool.and_eq_true] at h
      simp only [List.any_cons, ih h.2, nfts_any_pos_eq_nonempty kd.2.nfts h.1]

/-- Under the NFT-count well-formedness of `wfNftCounts`, the
    specification's has-balance predicate and the code's agree. -/
lemma hasBalanceClaim_eq_hasBalanceEVM (w : Wallet) (h : wfNftCounts w = true) :
    hasBalanceClaim w = hasBalanceEVM w := by
  unfold hasBalanceClaim hasBalanceEVM wfNftCounts at *
  have htot : decide (0 < w.totalUSD.getD 0)
      = (match w.totalUSD with
         | some v => decide (0 < v)
         | none => false) := by
    cases w.totalUSD <;> simp
  rw [htot]
  cases hb : w.balances with
  | none => rfl
  | some b =>
      rw [hb] at h
      simp only []
      congr 1
      exact netsAny_claim_eq b.networks h

/-- C6: membership in the filtered output is governed by the has-balance
    predicate: a record on which the predicate is false is absent from
    `filterWallets`, and a record with positive total fiat value that
    occurs in the input is present (the hypothesis `wfNftCounts` holds
    for every record the balance fetcher produces: collections are only
    listed with a strictly positive count). -/
theorem c6_filter_membership (ws : List Wallet) (w : Wallet)
    (hwf : wfNftCounts w = true) :
    (hasBalanceClaim w = false → w ∉ filterWallets ws) ∧
    (w ∈ ws → 0 < w.totalUSD.getD 0 → w ∈ filterWallets ws) := by
  constructor
  · intro hfalse hmem
    have := (List.mem_filter.mp hmem).2
    rw [← hasBalanceClaim_eq_hasBalanceEVM w hwf] at this
    rw [hfalse] at this
    exact Bool.false_ne_true this
  · intro hmem hpos
    refine List.mem_filter.mpr ⟨hmem, ?_⟩
    unfold hasBalanceEVM
    cases htu : w.totalUSD with
    | none => rw [htu] at hpos; simp at hpos
    | some v =>
        rw [htu] at hpos
        simp only [Option.getD_some] at hpos
        simp [hpos]

/-- A concrete record with a positive total fiat value. -/
def walletPositive : Wallet :=
  { address := "0xDef", mnemonic := none, totalUSD := some 5, balances := none }

/-- Witness for C6 at a concrete input. -/
theorem c6_filter_membership_witness :
    wfNftCounts walletPositive = true ∧
    walletPositive ∈ filterWallets [walletPositive] :=
  ⟨by decide,
   (c6_filter_membership [walletPositive] walletPositive (by decide)).2
     (by decide) (by decide)⟩

/-! ## EVM balance fetcher (src/src/evm/balanceFetcher.js) -/

/-- `[...new Set(list)]`: removes duplicates keeping the first occurrence
    of each element, preserving order. -/
def dedupFirstAux : List String → List String → List String
  | _, [] => []
  | seen, x :: xs =>
      if x ∈ seen then dedupFirstAux seen xs
      else x :: dedupFirstAux (x :: seen) xs

/-- First-occurrence deduplication, the semantics of
    `[...new Set(response.data.result.map(tx => tx.contractAddress))]`. -/
def dedupFirst (l : List String) : List String := dedupFirstAux [] l

/-- The result of the per-contract ERC-20 queries
    (`balanceOf/decimals/symbol/name`); `none` models a contract whose
    calls throw (skipped by the inner catch). `balance` is the raw
    uint256 value. -/
structure ErcQuery where
  balance : Nat
  decimals : Nat
  symbol : String
  name : String
deriving DecidableEq

/-- One entry of `getERC20Balances`' output. -/
structure ErcBalOut where
  contract : String
  balance : Nat
  decimals : Nat
  symbol : String
  name : String
deriving DecidableEq

/-- `getERC20Balances` from src/src/evm/balanceFetcher.js lines 116-178:
    explorer token-transfer list → unique contracts → first 50 queried →
    entries with positive balance kept. `tokenInfo` injects the
    per-contract RPC outcome; `status`/`result` are the explorer
    response; `hasExplorer` is `network.explorer` presence. -/
def getERC20Balances (tokenInfo : String → Option ErcQuery)
    (hasExplorer : Bool) (status : String) (result : Option (List String)) :
    List ErcBalOut :=
  if !hasExplorer then []
  else if status ≠ "1" then []
  else match result with
  | none => []
  | some txContracts =>
      ((dedupFirst txContracts).take 50).filterMap fun c =>
        match tokenInfo c with
        | none => none
        | some q =>
            if 0 < q.balance then
              some ⟨c, q.balance, q.decimals, q.symbol, q.name⟩
            else none

/-- The per-collection ERC-721 query result (`balanceOf/name/symbol`). -/
structure NftQuery where
  balance : Nat
  name : String
  symbol : String
deriving DecidableEq

/-- One entry of `getNFTBalances`' output (`count := Number(balance)`). -/
structure NftBalOut where
  contract : String
  name : String
  symbol : String
  count : Nat
deriving DecidableEq

/-- `getNFTBalances` from src/src/evm/balanceFetcher.js lines 183-242:
    same shape as the ERC-20 path but capped at 30 collections. -/
def getNFTBalances (nftInfo : String → Option NftQuery)
    (hasExplorer : Bool) (status : String) (result : Option (List String)) :
    List NftBalOut :=
  if !hasExplorer then []
  else if status ≠ "1" then []
  else match result with
  | none => []
  | some txContracts =>
      ((dedupFirst txContracts).take 30).filterMap fun c =>
        match nftInfo c with
        | none => none
        | some q =>
            if 0 < q.balance then
              some ⟨c, q.name, q.symbol, q.balance⟩
            else none

/-- A list of `n` pairwise-distinct contract addresses. -/
def capContracts (n : Nat) : List String :=
  (List.range n).map (fun i => "c" ++ toString i)

/-- A token oracle answering every contract with a positive balance. -/
def uniformTokenInfo : String → Option ErcQuery :=
  fun _ => some ⟨1, 18, "TOK", "Token"⟩

/-- C4 counterexample: two inputs whose distinct contract lists exceed the
    cap by different amounts (51 vs 52 contracts, all with positive
    balances) produce *identical* outputs: the number of entries beyond
    the cap is not recorded anywhere — the excess is silently lost, there
    is no "more exist" count. -/
theorem c4_no_more_exist_count :
    getERC20Balances uniformTokenInfo true "1" (some (capContracts 51)) =
      getERC20Balances uniformTokenInfo true "1" (some (capContracts 52)) ∧
    (dedupFirst (capContracts 51)).length = 51 ∧
    (dedupFirst (capContracts 52)).length = 52 := by
  refine ⟨by decide, by decide, by decide⟩

/-- `filterMap` never lengthens a list. -/
lemma length_filterMap_le' {α β : Type} (f : α → Option β) (l : List α) :
    (l.filterMap f).length ≤ l.length := by
  induction l with
  | nil => simp
  | cons a l ih =>
      rw [List.filterMap_cons]
      cases f a with
      | none => exact Nat.le_succ_of_le ih
      | some b => simpa using ih

/-- C4 amended: token/collectible enumeration is bounded by fixed caps
    (50 ERC-20 contracts, 30 NFT collections inspected per address);
    entries beyond the cap are dropped silently, with no recorded
    "more exist" count. -/
theorem c4_enumeration_capped (f : String → Option ErcQuery)
    (g : String → Option NftQuery) (he he2 : Bool) (st st2 : String)
    (res res2 : Option (List String)) :
    (getERC20Balances f he st res).length ≤ 50 ∧
    (getNFTBalances g he2 st2 res2).length ≤ 30 := by
  constructor
  · unfold getERC20Balances
    split
    · simp
    · split
      · simp
      · match res with
        | none => simp
        | some txs =>
            exact le_trans (length_filterMap_le' _ _)
              (List.length_take_le 50 (dedupFirst txs))
  · unfold getNFTBalances
    split
    · simp
    · split
      · simp
      · match res2 with
        | none => simp
        | some txs =>
            exact le_trans (length_filterMap_le' _ _)
              (List.length_take_le 30 (dedupFirst txs))

/-- The `NETWORKS` table of src/src/evm/balanceFetcher.js, reduced to the
    fields `calculateUSDValue` consumes: network key → coingeckoId. -/
def NETWORKS_GECKO : List (String × String) :=
  [("ethereum", "ethereum"), ("bsc", "binancecoin"),
   ("base", "ethereum"), ("sei", "sei-network")]

/-- `calculateUSDValue` from src/src/evm/balanceFetcher.js lines 247-273:
    walks the per-network entries; for each network present in `NETWORKS`
    whose coingecko price is available, adds `native.balance * price` to
    the total. ERC-20 tokens and NFTs are never consulted (the code's own
    comment: "For now, we'll just include native token USD values").
    `prices` injects the CoinGecko response (`none` = id absent;
    `priceData.usd || 0` is folded into the returned value). -/
def calculateUSDValue (prices : String → Option ℚ)
    (nets : List (String × NetData)) : ℚ :=
  nets.foldl (fun totalUSD kd =>
    match mapGet NETWORKS_GECKO kd.1 with
    | none => totalUSD
    | some gid =>
        match prices gid with
        | none => totalUSD
        | some nativePrice =>
            match kd.2.native with
            | none => totalUSD
            | some nb => totalUSD + nb.balance * nativePrice) 0

/-- `fetchAllBalances` from src/src/evm/balanceFetcher.js lines 278-305:
    builds one `NetData` per configured network from the three
    asset-class queries, then sets `totalUSD := calculateUSDValue`. -/
def fetchAllBalances (nativeQ : String → NativeBal)
    (ercQ : String → List ErcToken) (nftQ : String → List NftCol)
    (prices : String → Option ℚ) : BalObj :=
  let networks := NETWORKS_GECKO.map
    (fun kg => (kg.1, NetData.mk (some (nativeQ kg.1)) (ercQ kg.1) (nftQ kg.1)))
  { networks := networks,
    totalUSD := some (calculateUSDValue prices networks) }

/-- The accumulator-generalized form of token/NFT independence. -/
lemma calcUSD_foldl_tokens_irrelevant (prices : String → Option ℚ)
    (ft : String → NetData → List ErcToken)
    (fn : String → NetData → List NftCol) :
    ∀ (nets : List (String × NetData)) (a : ℚ),
      (nets.map fun kd =>
        (kd.1, NetData.mk kd.2.native (ft kd.1 kd.2) (fn kd.1 kd.2))).foldl
        (fun totalUSD kd =>
          match mapGet NETWORKS_GECKO kd.1 with
          | none => totalUSD
          | some gid =>
              match prices gid with
              | none => totalUSD
              | some nativePrice =>
                  match kd.2.native with
                  | none => totalUSD
                  | some nb => totalUSD + nb.balance * nativePrice) a
      = nets.foldl
        (fun totalUSD kd =>
          match mapGet NETWORKS_GECKO kd.1 with
          | none => totalUSD
          | some gid =>
              match prices gid with
              | none => totalUSD
              | some nativePrice =>
                  match kd.2.native with
                  | none => totalUSD
                  | some nb => totalUSD + nb.balance * nativePrice) a := by
  intro nets
  induction nets with
  | nil => intro a; rfl
  | cons kd rest ih =>
      intro a
      simp only [List.map_cons, List.foldl_cons]
      exact ih _

/-- With all native balances zero, the fold never moves off its
    accumulator. -/
lemma calcUSD_foldl_zero_natives (prices : String → Option ℚ) :
    ∀ (nets : List (String × NetData)),
      nets.all (fun kd =>
        match kd.2.native with
        | none => true
        | some nb => decide (nb.balance = 0)) = true →
      ∀ a : ℚ,
      nets.foldl
        (fun totalUSD kd =>
          match mapGet NETWORKS_GECKO kd.1 with
          | none => totalUSD
          | some gid =>
              match prices gid with
              | none => totalUSD
              | some nativePrice =>
                  match kd.2.native with
                  | none => totalUSD
                  | some nb => totalUSD + nb.balance * nativePrice) a = a := by
  intro nets
  induction nets with
  | nil => intro _ a; rfl
  | cons kd rest ih =>
      intro h a
      simp only [List.all_cons, Bool.and_eq_true] at h
      rw [List.foldl_cons]
      have hstep :
          (match mapGet NETWORKS_GECKO kd.1 with
           | none => a
           | some gid =>
               match prices gid with
               | none => a
               | some nativePrice =>
                   match kd.2.native with
                   | none => a
                   | some nb => a + nb.balance * nativePrice) = a := by
        split
        · rfl
        · split
          · rfl
          · split
            · rfl
            · next nb heq =>
                have h1 := h.1
                rw [heq] at h1
                simp only [decide_eq_true_eq] at h1
                simp [h1]
      rw [hstep]
      exact ih h.2 a

/-- C10: the EVM aggregator's `totalUSD` is computed from native-coin
    balances only. (1) Replacing every network's token and NFT lists by
    anything leaves `calculateUSDValue` unchanged; (2) if every native
    balance is zero the total is zero; (3) such a snapshot with a
    positive-balance ERC-20 token still satisfies the filter's
    has-balance predicate even though its `totalUSD` is zero. -/
theorem c10_totalUSD_native_only :
    (∀ (prices : String → Option ℚ) (nets : List (String × NetData))
       (ft : String → NetData → List ErcToken)
       (fn : String → NetData → List NftCol),
       calculateUSDValue prices
         (nets.map fun kd =>
           (kd.1, NetData.mk kd.2.native (ft kd.1 kd.2) (fn kd.1 kd.2)))
       = calculateUSDValue prices nets) ∧
    (∀ (prices : String → Option ℚ) (nets : List (String × NetData)),
       nets.all (fun kd =>
         match kd.2.native with
         | none => true
         | some nb => decide (nb.balance = 0)) = true →
       calculateUSDValue prices nets = 0) ∧
    (∀ (prices : String → Option ℚ) (nets : List (String × NetData))
       (addr : String),
       nets.any (fun kd =>
         kd.2.erc20Tokens.any fun t => decide (0 < t.balance)) = true →
       hasBalanceEVM
         { address := addr, mnemonic := none,
           totalUSD := some (calculateUSDValue prices nets),
           balances := some ⟨nets, some (calculateUSDValue prices nets)⟩ }
       = true) := by
  refine ⟨?_, ?_, ?_⟩
  · intro prices nets ft fn
    exact calcUSD_foldl_tokens_irrelevant prices ft fn nets 0
  · intro prices nets h
    exact calcUSD_foldl_zero_natives prices nets h 0
  · intro prices nets addr h
    unfold hasBalanceEVM
    simp only [Bool.or_eq_true]
    right
    rw [List.any_eq_true] at h ⊢
    obtain ⟨kd, hmem, htok⟩ := h
    exact ⟨kd, hmem, by simp [htok]⟩

/-- Concrete snapshot: zero ETH, one positive ERC-20 token. -/
def tokensOnlyNets : List (String × NetData) :=
  [("ethereum", NetData.mk (some ⟨0⟩) [⟨"0xToken", 3⟩] [])]

/-- Witness for C10 at a concrete input: a wallet holding only a token
    has `totalUSD = 0` yet passes the has-balance predicate. -/
theorem c10_totalUSD_native_only_witness :
    calculateUSDValue (fun _ => some 2000) tokensOnlyNets = 0 ∧
    hasBalanceEVM
      { address := "0xA", mnemonic := none,
        totalUSD := some (calculateUSDValue (fun _ => some 2000) tokensOnlyNets),
        balances := some ⟨tokensOnlyNets,
          some (calculateUSDValue (fun _ => some 2000) tokensOnlyNets)⟩ }
      = true :=
  ⟨c10_totalUSD_native_only.2.1 (fun _ => some 2000) tokensOnlyNets (by decide),
   c10_totalUSD_native_only.2.2 (fun _ => some 2000) tokensOnlyNets "0xA" (by decide)⟩

/-! ## Scan coordinator (src/scanWithBalances.js, per-wallet loop of `main`)

The loop is chain-agnostic (the snapshot shape `β` and the balance
fetcher are injected by dynamic import), so the embedding is generic:
`nonEmpty` models `Object.keys(balances).length > 0`, `tUSD` reads the
snapshot's `totalUSD` field, `emptyB` is the `{}` written on fetch
error, and `fetchResult` is the outcome of `fetchAllBalances` per
address. -/

/-- A wallet entry as it flows through the scan loop: scanner output has
    `balances`/`totalUSD` undefined; the loop fills them in. -/
structure ScanWallet (β : Type) where
  address : String
  balances : Option β
  totalUSD : Option ℚ
deriving DecidableEq

/-- One `saveCache(intermediateResults, true)` call: the persisted
    `scannedWallets` count, the persisted `wallets.slice(0, i + 1)`, and
    the persisted running total. -/
structure SaveRecord (β : Type) where
  scannedWallets : Nat
  wallets : List (ScanWallet β)
  totalPortfolioUSD : ℚ
deriving DecidableEq

/-- The mutable state of the per-wallet loop, plus an event log:
    `fetchedAddrs` records every address for which `fetchAllBalances`
    was invoked, `saves` every incremental cache write. -/
structure LoopState (β : Type) where
  totalPortfolioUSD : ℚ
  processed : List (ScanWallet β)
  saves : List (SaveRecord β)
  fetchedAddrs : List String
  skippedCount : Nat
  fetchedCount : Nat
deriving DecidableEq

/-- Loop entry state (`totalPortfolioUSD = 0`, nothing processed). -/
def initialLoopState (β : Type) : LoopState β :=
  ⟨0, [], [], [], 0, 0⟩

/-- The `else` branch of the loop (src/scanWithBalances.js lines 271-301):
    fetch balances (or `{}` with `totalUSD = 0` on error), then
    **save the cache** — the only place `saveCache` is called inside the
    loop. -/
def fetchBranch {β : Type} (tUSD : β → Option ℚ) (emptyB : β)
    (fetchResult : String → Except String β)
    (st : LoopState β) (w : ScanWallet β) : LoopState β :=
  let wtf : ScanWallet β × ℚ × Nat :=
    match fetchResult w.address with
    | .ok balances =>
        ({ w with balances := some balances,
                  totalUSD := some ((tUSD balances).getD 0) },
         st.totalPortfolioUSD + (tUSD balances).getD 0,
         st.fetchedCount + 1)
    | .error _ =>
        ({ w with balances := some emptyB, totalUSD := some 0 },
         st.totalPortfolioUSD, st.fetchedCount)
  let processed := st.processed ++ [wtf.1]
  { totalPortfolioUSD := wtf.2.1,
    processed := processed,
    saves := st.saves ++ [⟨processed.length, processed, wtf.2.1⟩],
    fetchedAddrs := st.fetchedAddrs ++ [w.address],
    skippedCount := st.skippedCount,
    fetchedCount := wtf.2.2 }

/-- One iteration of the per-wallet loop (src/scanWithBalances.js lines
    259-302): if the resume map has an entry with a non-empty balances
    object, reuse it (no fetch, **no save**); otherwise fetch and save. -/
def scanStep {β : Type} (nonEmpty : β → Bool) (tUSD : β → Option ℚ)
    (emptyB : β) (fetchResult : String → Except String β)
    (existingWalletMap : List (String × ScanWallet β))
    (st : LoopState β) (w : ScanWallet β) : LoopState β :=
  match mapGet existingWalletMap (jsToLower w.address) with
  | some existingWallet =>
      match existingWallet.balances with
      | some b =>
          if nonEmpty b then
            { totalPortfolioUSD :=
                st.totalPortfolioUSD + existingWallet.totalUSD.getD 0,
              processed := st.processed ++
                [{ w with balances := some b,
                          totalUSD := some (existingWallet.totalUSD.getD 0) }],
              saves := st.saves,
              fetchedAddrs := st.fetchedAddrs,
              skippedCount := st.skippedCount + 1,
              fetchedCount := st.fetchedCount }
          else fetchBranch tUSD emptyB fetchResult st w
      | none => fetchBranch tUSD emptyB fetchResult st w
  | none => fetchBranch tUSD emptyB fetchResult st w

/-- The whole per-wallet loop. -/
def runScanLoop {β : Type} (nonEmpty : β → Bool) (tUSD : β → Option ℚ)
    (emptyB : β) (fetchResult : String → Except String β)
    (existingWalletMap : List (String × ScanWallet β))
    (wallets : List (ScanWallet β)) : LoopState β :=
  wallets.foldl (scanStep nonEmpty tUSD emptyB fetchResult existingWalletMap)
    (initialLoopState β)

/-- A candidate list of three accounts, the latter two already cached. -/
def c2Wallets : List (ScanWallet Bool) :=
  [⟨"a", none, none⟩, ⟨"b", none, none⟩, ⟨"c", none, none⟩]

/-- The resume map holding non-empty cached snapshots for `b` and `c`. -/
def c2Cache : List (String × ScanWallet Bool) :=
  [("b", ⟨"b", some true, some 7⟩), ("c", ⟨"c", some true, some 7⟩)]

/-- C2 counterexample: in a run where account `a` is fetched and accounts
    `b`, `c` are reused from cache, the cache file is written exactly
    once (after `a`), not after every account: the last persisted
    `scannedWallets` is 1 while the loop completed 3 accounts, a lag of
    two — `saveCache` sits only in the fetch branch, so reused accounts
    never trigger a save. -/
theorem c2_no_save_on_reuse :
    (runScanLoop (fun b => b) (fun _ => some 5) false (fun _ => Except.ok true)
        c2Cache c2Wallets).saves.length = 1 ∧
    (runScanLoop (fun b => b) (fun _ => some 5) false (fun _ => Except.ok true)
        c2Cache c2Wallets).processed.length = 3 ∧
    (runScanLoop (fun b => b) (fun _ => some 5) false (fun _ => Except.ok true)
        c2Cache c2Wallets).saves.map (fun s => s.scannedWallets) = [1] := by
  refine ⟨by decide, by decide, by decide⟩

/-- The fetch branch always appends exactly one save, one processed
    wallet and one fetched address, leaving `skippedCount` alone. -/
lemma fetchBranch_counts {β : Type} (tUSD : β → Option ℚ) (emptyB : β)
    (fetchResult : String → Except String β)
    (st : LoopState β) (w : ScanWallet β) :
    (fetchBranch tUSD emptyB fetchResult st w).saves.length
      = st.saves.length + 1 ∧
    (fetchBranch tUSD emptyB fetchResult st w).skippedCount
      = st.skippedCount ∧
    (fetchBranch tUSD emptyB fetchResult st w).processed.length
      = st.processed.length + 1 ∧
    (fetchBranch tUSD emptyB fetchResult st w).fetchedAddrs
      = st.fetchedAddrs ++ [w.address] := by
  unfold fetchBranch
  cases hf : fetchResult w.address <;> simp [hf]

/-- Each loop iteration either saves (fetch branch) or increments
    `skippedCount` (reuse branch), and always processes one wallet. -/
lemma scanStep_save_or_skip {β : Type} (nonEmpty : β → Bool)
    (tUSD : β → Option ℚ) (emptyB : β)
    (fetchResult : String → Except String β)
    (em : List (String × ScanWallet β))
    (st : LoopState β) (w : ScanWallet β) :
    (scanStep nonEmpty tUSD emptyB fetchResult em st w).saves.length +
      (scanStep nonEmpty tUSD emptyB fetchResult em st w).skippedCount
      = st.saves.length + st.skippedCount + 1 ∧
    (scanStep nonEmpty tUSD emptyB fetchResult em st w).processed.length
      = st.processed.length + 1 := by
  unfold scanStep
  split
  · split
    · split
      · refine ⟨?_, ?_⟩ <;> simp +arith
      · obtain ⟨h1, h2, h3, _⟩ :=
          fetchBranch_counts tUSD emptyB fetchResult st w
        exact ⟨by omega, by omega⟩
    · obtain ⟨h1, h2, h3, _⟩ :=
        fetchBranch_counts tUSD emptyB fetchResult st w
      exact ⟨by omega, by omega⟩
  · obtain ⟨h1, h2, h3, _⟩ :=
      fetchBranch_counts tUSD emptyB fetchResult st w
    exact ⟨by omega, by omega⟩

/-- C2 amended: the cache is persisted exactly once per non-reused
    account — `saves` and `skippedCount` partition the candidate list —
    so reused accounts contribute no save and the persisted progress can
    lag the true progress by more than one in-flight account. -/
theorem c2_saves_count_fetched_only {β : Type} (nonEmpty : β → Bool)
    (tUSD : β → Option ℚ) (emptyB : β)
    (fetchResult : String → Except String β)
    (em : List (String × ScanWallet β)) (wallets : List (ScanWallet β)) :
    (runScanLoop nonEmpty tUSD emptyB fetchResult em wallets).saves.length +
      (runScanLoop nonEmpty tUSD emptyB fetchResult em wallets).skippedCount
      = wallets.length ∧
    (runScanLoop nonEmpty tUSD emptyB fetchResult em wallets).processed.length
      = wallets.length := by
  have key : ∀ (ws : List (ScanWallet β)) (st : LoopState β),
      (ws.foldl (scanStep nonEmpty tUSD emptyB fetchResult em) st).saves.length +
        (ws.foldl (scanStep nonEmpty tUSD emptyB fetchResult em) st).skippedCount
        = st.saves.length + st.skippedCount + ws.length ∧
      (ws.foldl (scanStep nonEmpty tUSD emptyB fetchResult em) st).processed.length
        = st.processed.length + ws.length := by
    intro ws
    induction ws with
    | nil => intro st; simp
    | cons w rest ih =>
        intro st
        rw [List.foldl_cons]
        obtain ⟨h1, h2⟩ := ih (scanStep nonEmpty tUSD emptyB fetchResult em st w)
        obtain ⟨g1, g2⟩ :=
          scanStep_save_or_skip nonEmpty tUSD emptyB fetchResult em st w
        constructor
        · rw [h1, g1]; simp +arith
        · rw [h2, g2]; simp +arith
  have := key wallets (initialLoopState β)
  simpa [initialLoopState] using this

/-- A loop iteration leaves `fetchedAddrs` unchanged (reuse) or appends
    exactly the current wallet's address (fetch). -/
lemma scanStep_fetched_cases {β : Type} (nonEmpty : β → Bool)
    (tUSD : β → Option ℚ) (emptyB : β)
    (fetchResult : String → Except String β)
    (em : List (String × ScanWallet β))
    (st : LoopState β) (w : ScanWallet β) :
    (scanStep nonEmpty tUSD emptyB fetchResult em st w).fetchedAddrs
      = st.fetchedAddrs ∨
    (scanStep nonEmpty tUSD emptyB fetchResult em st w).fetchedAddrs
      = st.fetchedAddrs ++ [w.address] := by
  unfold scanStep
  split
  · split
    · split
      · exact Or.inl rfl
      · exact Or.inr (fetchBranch_counts tUSD emptyB fetchResult st w).2.2.2
    · exact Or.inr (fetchBranch_counts tUSD emptyB fetchResult st w).2.2.2
  · exact Or.inr (fetchBranch_counts tUSD emptyB fetchResult st w).2.2.2

/-- If the resume map holds a non-empty snapshot under key `K`, no
    address lowering to `K` is ever fetched by the loop. -/
lemma no_fetch_for_cached_key {β : Type} (nonEmpty : β → Bool)
    (tUSD : β → Option ℚ) (emptyB : β)
    (fetchResult : String → Except String β)
    (em : List (String × ScanWallet β)) (K : String)
    (ew : ScanWallet β) (b : β)
    (hK : mapGet em K = some ew) (hb : ew.balances = some b)
    (hne : nonEmpty b = true) :
    ∀ (ws : List (ScanWallet β)) (st : LoopState β),
      (∀ a : String, jsToLower a = K → a ∉ st.fetchedAddrs) →
      ∀ a : String, jsToLower a = K →
      a ∉ (ws.foldl (scanStep nonEmpty tUSD emptyB fetchResult em) st).fetchedAddrs := by
  intro ws
  induction ws with
  | nil => intro st h a ha; exact h a ha
  | cons w rest ih =>
      intro st h a ha
      rw [List.foldl_cons]
      refine ih (scanStep nonEmpty tUSD emptyB fetchResult em st w) ?_ a ha
      intro a2 ha2
      by_cases hw : jsToLower w.address = K
      · have hred :
            (scanStep nonEmpty tUSD emptyB fetchResult em st w).fetchedAddrs
              = st.fetchedAddrs := by
          simp [scanStep, hw, hK, hb, hne]
        rw [hred]
        exact h a2 ha2
      · rcases scanStep_fetched_cases nonEmpty tUSD emptyB fetchResult
          em st w with hcase | hcase
        · rw [hcase]; exact h a2 ha2
        · rw [hcase]
          intro hmem
          rcases List.mem_append.mp hmem with hmem2 | hmem2
          · exact h a2 ha2 hmem2
          · have ha2w : a2 = w.address := by simpa using hmem2
            rw [ha2w] at ha2
            exact hw ha2

/-- C5: on a non-forced rerun, an account whose lowered address has a
    cached snapshot with a non-empty balances object is reused: the
    iteration performs no balance query and no save, marks the account
    skipped, and adds the cached `totalUSD || 0` — the cached fiat value
    carried forward unchanged — to the aggregate total; moreover the
    whole loop never fetches that address. -/
theorem c5_cache_reuse {β : Type} (nonEmpty : β → Bool)
    (tUSD : β → Option ℚ) (emptyB : β)
    (fetchResult : String → Except String β)
    (em : List (String × ScanWallet β))
    (st : LoopState β) (w ew : ScanWallet β) (b : β)
    (h1 : mapGet em (jsToLower w.address) = some ew)
    (h2 : ew.balances = some b) (h3 : nonEmpty b = true) :
    scanStep nonEmpty tUSD emptyB fetchResult em st w =
      { totalPortfolioUSD := st.totalPortfolioUSD + ew.totalUSD.getD 0,
        processed := st.processed ++
          [{ address := w.address, balances := some b,
             totalUSD := some (ew.totalUSD.getD 0) }],
        saves := st.saves,
        fetchedAddrs := st.fetchedAddrs,
        skippedCount := st.skippedCount + 1,
        fetchedCount := st.fetchedCount } ∧
    ∀ wallets : List (ScanWallet β),
      w.address ∉
        (runScanLoop nonEmpty tUSD emptyB fetchResult em wallets).fetchedAddrs := by
  constructor
  · simp [scanStep, h1, h2, h3]
  · intro wallets
    refine no_fetch_for_cached_key nonEmpty tUSD emptyB fetchResult em
      (jsToLower w.address) ew b h1 h2 h3 wallets (initialLoopState β)
      ?_ w.address rfl
    intro a2 _ hmem
    simp [initialLoopState] at hmem

/-- The resume map holding a cached snapshot for address `a` with
    `totalUSD = 50`. -/
def c5Cache : List (String × ScanWallet Bool) :=
  [("a", ⟨"a", some true, some 50⟩)]

/-- The candidate account for address `a` on the rerun. -/
def c5Wallet : ScanWallet Bool :=
  ⟨"a", none, none⟩

/-- Witness for C5 at a concrete input: the cached 50 is carried forward
    and no fetch is issued for the cached address. -/
theorem c5_cache_reuse_witness :
    (scanStep (fun b => b) (fun _ => some 5) false (fun _ => Except.ok true)
        c5Cache (initialLoopState Bool) c5Wallet).totalPortfolioUSD = 50 ∧
    (scanStep (fun b => b) (fun _ => some 5) false (fun _ => Except.ok true)
        c5Cache (initialLoopState Bool) c5Wallet).fetchedAddrs = [] ∧
    "a" ∉ (runScanLoop (fun b => b) (fun _ => some 5) false
        (fun _ => Except.ok true) c5Cache [c5Wallet]).fetchedAddrs := by
  obtain ⟨hstep, hloop⟩ :=
    c5_cache_reuse (fun b => b) (fun _ => some 5) false
      (fun _ => Except.ok true) c5Cache (initialLoopState Bool)
      c5Wallet ⟨"a", some true, some 50⟩ true
      (by decide) (by decide) (by decide)
  refine ⟨?_, ?_, hloop [c5Wallet]⟩
  · rw [hstep]; simp [initialLoopState]
  · rw [hstep]; rfl

/-! ## EVM account extraction (src/src/evm/walletScanner.js)

`ethDerive` injects `ethers.HDNodeWallet.fromPhrase(mnemonic, undefined,
path)` (returning address and private key, `none` = throws), `pkDerive`
injects `new ethers.Wallet(pk).address` (`none` = throws). -/

/-- A keyring of a decrypted MetaMask vault, by its `type` tag. -/
inductive Keyring where
  | hdKeyTree (mnemonic : Option String) (numberOfAccounts : Option Nat)
  | simpleKeyPair (keys : List String)
  | otherKind
deriving DecidableEq

/-- One account produced by the EVM `extractWalletAddresses`. -/
structure EthAccount where
  type : String
  address : String
  index : Nat
  derivationPath : Option String
  mnemonic : Option String
  privateKey : Option String
deriving DecidableEq

/-- The BIP-44 path used per account index. -/
def ethDerivationPath (i : Nat) : String :=
  "m/44\x27/60\x27/0\x27/0/" ++ toString i

/-- JS `numberOfAccounts || 1` (`undefined` and `0` are falsy). -/
def jsOrOneNat : Option Nat → Nat
  | none => 1
  | some 0 => 1
  | some k => k

/-- The inner HD loop: derive indices `i, i+1, ...` for `n` accounts;
    since the whole loop sits in one `try`, a throwing derivation keeps
    the accounts already pushed and stops. -/
def hdAccounts (ethDerive : String → Nat → Option (String × String))
    (m : String) : Nat → Nat → List EthAccount
  | 0, _ => []
  | n + 1, i =>
      match ethDerive m i with
      | none => []
      | some aw =>
          { type := "HD Wallet", address := aw.1, index := i,
            derivationPath := some (ethDerivationPath i),
            mnemonic := some m, privateKey := some aw.2 }
          :: hdAccounts ethDerive m n (i + 1)

/-- The `Simple Key Pair` branch: per-key try/catch, failures skipped
    individually (`index: index + 1`). -/
def simpleAccounts (pkDerive : String → Option String)
    (keys : List String) : List EthAccount :=
  keys.enum.filterMap fun ik =>
    match pkDerive ik.2 with
    | none => none
    | some addr =>
        some { type := "Imported Account", address := addr,
               index := ik.1 + 1, derivationPath := none,
               mnemonic := none, privateKey := some ik.2 }

/-- `extractWalletAddresses` from src/src/evm/walletScanner.js lines
    120-169: walks the decrypted keyrings and concatenates the derived
    accounts — no deduplication of any kind. -/
def extractWalletAddresses (ethDerive : String → Nat → Option (String × String))
    (pkDerive : String → Option String) (vault : List Keyring) :
    List EthAccount :=
  (vault.map fun kr =>
    match kr with
    | .hdKeyTree m n =>
        match m with
        | some mn =>
            if mn.isEmpty then []
            else hdAccounts ethDerive mn (jsOrOneNat n) 0
        | none => []
    | .simpleKeyPair keys => simpleAccounts pkDerive keys
    | .otherKind => []).flatten

/-- How one browser profile's vault read/decrypt turned out:
    `vault contents decryptOk` carries what the vault holds and whether
    `decrypt(password, vault)` succeeds. -/
inductive EvmProfileData where
  | readError
  | noKeyring
  | noVault
  | vault (contents : List Keyring) (decryptOk : Bool)
deriving DecidableEq

/-- An extracted account tagged with its browser profile. -/
structure ProfiledAccount where
  profile : String
  account : EthAccount
deriving DecidableEq

/-- `scanAllWallets` from src/src/evm/walletScanner.js lines 171-222:
    per profile, read the vault and decrypt it; a decryption failure is
    caught at profile level, so that profile contributes nothing. -/
def scanAllWalletsEVM (ethDerive : String → Nat → Option (String × String))
    (pkDerive : String → Option String)
    (profiles : List (String × EvmProfileData)) : List ProfiledAccount :=
  (profiles.map fun p =>
    match p.2 with
    | .vault contents true =>
        (extractWalletAddresses ethDerive pkDerive contents).map
          fun a => ⟨p.1, a⟩
    | _ => []).flatten

/-! ## Phantom account extraction (src/unnamed/part_003)

`extractWalletAddresses` there reads the *unencrypted*
`.phantom-labs.vault.accounts` entry and never calls the decryption
primitive: every produced account carries `privateKey: null` and
`mnemonic: null`, and a seen-address set suppresses same-address
records within the vault. -/

/-- `account.chains.solana` of a seed-backed Phantom account. -/
structure PhChainEntry where
  publicKey : Option String
deriving DecidableEq

/-- One raw account record of the Phantom vault-accounts entry
    (fields the extractor consults). -/
structure PhAccount where
  type : String
  chainsSolana : Option PhChainEntry
  chainType : Option String
  publicKey : Option String
  derivationIndex : Option Nat
  seedIdentifier : Option String
deriving DecidableEq

/-- One account produced by the Phantom extractor (the
    `privateKeyIdentifier`/`identifier` passthrough fields of imported
    accounts are omitted; the extractor only copies them). -/
structure SolAccount where
  type : String
  address : String
  index : Nat
  derivationIndex : Option Nat
  seedIdentifier : Option String
  privateKey : Option String
  mnemonic : Option String
deriving DecidableEq

/-- Character-list prefix test (for `String.prototype.startsWith`). -/
def charsHavePre : List Char → List Char → Bool
  | [], _ => true
  | _ :: _, [] => false
  | p :: ps, c :: cs => p = c && charsHavePre ps cs

/-- The address shape check of part_003 lines 167 and 188: truthy,
    no `0x` prefix, length between 32 and 44. -/
def isValidSolanaAddress (s : String) : Bool :=
  !s.isEmpty && !charsHavePre ['0', 'x'] s.data &&
    decide (32 ≤ s.length) && decide (s.length ≤ 44)

/-- What one raw account contributes before the seen-address check:
    seed-backed accounts need a valid Solana chain entry, imported
    accounts need `chainType: 'solana'` and a valid public key; private
    material is always `null` (it would need the password). -/
def phantomCandidate (a : PhAccount) (i : Nat) : Option SolAccount :=
  if a.type = "seed" then
    match a.chainsSolana with
    | some ce =>
        match ce.publicKey with
        | some pk =>
            if isValidSolanaAddress pk then
              some { type := "HD Wallet", address := pk, index := i,
                     derivationIndex := some (a.derivationIndex.getD 0),
                     seedIdentifier := a.seedIdentifier,
                     privateKey := none, mnemonic := none }
            else none
        | none => none
    | none => none
  else if a.type = "privateKey" ∧ a.chainType = some "solana" then
    match a.publicKey with
    | some pk =>
        if isValidSolanaAddress pk then
          some { type := "Imported Account", address := pk, index := i,
                 derivationIndex := none, seedIdentifier := none,
                 privateKey := none, mnemonic := none }
        else none
    | none => none
  else none

/-- The account loop of part_003 lines 156-207 with its
    `seenAddresses` set. -/
def phantomExtractGo : List PhAccount → Nat → List String → List SolAccount
  | [], _, _ => []
  | a :: rest, i, seen =>
      match phantomCandidate a i with
      | none => phantomExtractGo rest (i + 1) seen
      | some acct =>
          if acct.address ∈ seen then phantomExtractGo rest (i + 1) seen
          else acct :: phantomExtractGo rest (i + 1) (acct.address :: seen)

/-- The Phantom account walk over the vault-accounts list. -/
def phantomExtract (accounts : List PhAccount) : List SolAccount :=
  phantomExtractGo accounts 0 []

/-- `extractWalletAddresses` from src/unnamed/part_003 lines 141-213:
    the `password` parameter is received but never used — extraction is
    a decryption-free pass (`none` models a missing or malformed
    `.phantom-labs.vault.accounts` entry). -/
def extractWalletAddressesPhantom (_password : String)
    (vaultAccounts : Option (List PhAccount)) : List SolAccount :=
  match vaultAccounts with
  | none => []
  | some accounts => phantomExtract accounts

/-- Every candidate the Phantom extractor can produce has null private
    material. -/
lemma phantomCandidate_null_material (a : PhAccount) (i : Nat)
    (acct : SolAccount) (h : phantomCandidate a i = some acct) :
    acct.privateKey = none ∧ acct.mnemonic = none := by
  unfold phantomCandidate at h
  split at h
  · split at h
    · split at h
      · split at h
        · cases h; exact ⟨rfl, rfl⟩
        · cases h
      · cases h
    · cases h
  · split at h
    · split at h
      · split at h
        · cases h; exact ⟨rfl, rfl⟩
        · cases h
      · cases h
    · cases h

/-- Null private material, lifted over the account loop. -/
lemma phantomExtractGo_null_material :
    ∀ (accounts : List PhAccount) (i : Nat) (seen : List String)
      (w : SolAccount), w ∈ phantomExtractGo accounts i seen →
      w.privateKey = none ∧ w.mnemonic = none := by
  intro accounts
  induction accounts with
  | nil =>
      intro i seen w h
      simp [phantomExtractGo] at h
  | cons a rest ih =>
      intro i seen w h
      unfold phantomExtractGo at h
      cases hc : phantomCandidate a i with
      | none => rw [hc] at h; exact ih _ _ w h
      | some acct =>
          rw [hc] at h
          dsimp only at h
          by_cases hin : acct.address ∈ seen
          · rw [if_pos hin] at h
            exact ih _ _ w h
          · rw [if_neg hin] at h
            rcases List.mem_cons.mp h with hw | hw
            · rw [hw]; exact phantomCandidate_null_material a i acct hc
            · exact ih _ _ w hw

/-- The loop's seen-set discipline: produced addresses avoid `seen`, and
    the produced address list has no duplicates. -/
lemma phantomExtractGo_nodup :
    ∀ (accounts : List PhAccount) (i : Nat) (seen : List String),
      (∀ w ∈ phantomExtractGo accounts i seen, w.address ∉ seen) ∧
      ((phantomExtractGo accounts i seen).map (fun w => w.address)).Nodup := by
  intro accounts
  induction accounts with
  | nil =>
      intro i seen
      constructor
      · intro w h; simp [phantomExtractGo] at h
      · simp [phantomExtractGo]
  | cons a rest ih =>
      intro i seen
      unfold phantomExtractGo
      cases hc : phantomCandidate a i with
      | none => exact ih (i + 1) seen
      | some acct =>
          dsimp only
          by_cases hin : acct.address ∈ seen
          · rw [if_pos hin]
            exact ih (i + 1) seen
          · rw [if_neg hin]
            obtain ⟨havoid, hnodup⟩ := ih (i + 1) (acct.address :: seen)
            constructor
            · intro w hw
              rcases List.mem_cons.mp hw with hw2 | hw2
              · rw [hw2]; exact hin
              · intro hcontra
                exact havoid w hw2 (List.mem_cons_of_mem _ hcontra)
            · rw [List.map_cons]
              refine List.nodup_cons.mpr ⟨?_, hnodup⟩
              intro hcontra
              rcases List.mem_map.mp hcontra with ⟨w, hwmem, hweq⟩
              exact havoid w hwmem (by rw [← hweq]; exact List.mem_cons_self _ _)

/-- A decrypted vault holding a single imported key. -/
def dupKeyVault : List Keyring := [Keyring.simpleKeyPair ["k1", "k1"]]

/-- A toy private-key → address oracle (injective on our inputs). -/
def pkDeriveToy : String → Option String := fun k => some ("0x" ++ k)

/-- A toy HD derivation oracle, unused by the counterexamples. -/
def ethDeriveToy : String → Nat → Option (String × String) := fun _ _ => none

/-- A 32-character Solana-shaped address. -/
def solAddr32 : String := "ABCDEFGHIJKLMNOPQRSTUVWXYZ123456"

/-- A seed-backed Phantom account exposing `solAddr32`. -/
def phSeedAccount : PhAccount :=
  { type := "seed", chainsSolana := some ⟨some solAddr32⟩,
    chainType := none, publicKey := none,
    derivationIndex := some 0, seedIdentifier := some "seed-1" }

/-- C9 counterexample, both directions of the claim: (1) the EVM
    extractor applies no deduplication, so a vault whose `Simple Key
    Pair` keyring lists the same private key twice yields the same
    address twice in one extractor output; (2) the Phantom extractor
    *does* deduplicate same-address records itself via its
    `seenAddresses` set — two accounts with one address produce a single
    record, so dedup is not left exclusively to the post-processing
    filter. -/
theorem c9_extractor_uniqueness_fails :
    ¬ ((extractWalletAddresses ethDeriveToy pkDeriveToy dupKeyVault).map
        (fun a => a.address)).Nodup ∧
    (phantomExtract [phSeedAccount, phSeedAccount]).length = 1 := by
  constructor
  · decide
  · decide

/-- C9 amended: the Phantom extractor's output has pairwise-distinct
    addresses (it deduplicates within one vault via a seen-address set);
    the EVM extractor guarantees no such invariant, and cross-profile
    duplicates are resolved only by the post-processing filter. -/
theorem c9_phantom_addresses_nodup (accounts : List PhAccount) :
    ((phantomExtract accounts).map (fun w => w.address)).Nodup :=
  (phantomExtractGo_nodup accounts 0 []).2

/-- A profile whose vault holds one extractable account but whose
    decryption fails (wrong password). -/
def wrongPwProfiles : List (String × EvmProfileData) :=
  [("Default", EvmProfileData.vault [Keyring.simpleKeyPair ["k1"]] false)]

/-- C3 counterexample: on the EVM scanner a failed vault decryption drops
    the *whole profile* — the scan lists no account at all, even though
    the vault contains one extractable account — so it is not true that
    every extractor still returns all accounts with addresses and null
    private material when decryption fails. -/
theorem c3_wrong_password_drops_profile :
    scanAllWalletsEVM ethDeriveToy pkDeriveToy wrongPwProfiles = [] ∧
    (extractWalletAddresses ethDeriveToy pkDeriveToy
        [Keyring.simpleKeyPair ["k1"]]).length = 1 := by
  constructor
  · decide
  · decide

/-- C3 amended: the Phantom extractor is decryption-free — its output is
    independent of the password and every produced account has
    `privateKey = null` and `mnemonic = null` — so a wrong password can
    never abort it; the EVM scanner instead derives addresses only from
    the decrypted vault, and a vault-level decryption failure silently
    drops exactly that profile's accounts while sibling profiles are
    unaffected. -/
theorem c3_extraction_decryption_free :
    (∀ (p1 p2 : String) (data : Option (List PhAccount)),
       extractWalletAddressesPhantom p1 data
         = extractWalletAddressesPhantom p2 data) ∧
    (∀ (p : String) (data : Option (List PhAccount)) (w : SolAccount),
       w ∈ extractWalletAddressesPhantom p data →
       w.privateKey = none ∧ w.mnemonic = none) ∧
    (∀ (ethDerive : String → Nat → Option (String × String))
       (pkDerive : String → Option String) (name : String)
       (contents : List Keyring) (rest : List (String × EvmProfileData)),
       scanAllWalletsEVM ethDerive pkDerive
           ((name, EvmProfileData.vault contents false) :: rest)
         = scanAllWalletsEVM ethDerive pkDerive rest) := by
  refine ⟨?_, ?_, ?_⟩
  · intro p1 p2 data; rfl
  · intro p data w h
    match data with
    | none => simp [extractWalletAddressesPhantom] at h
    | some accounts =>
        exact phantomExtractGo_null_material accounts 0 [] w h
  · intro ethDerive pkDerive name contents rest
    simp [scanAllWalletsEVM]

/-- Witness for C3 at a concrete input: the account extracted from a
    Phantom vault carries no private material, whatever the password. -/
theorem c3_extraction_decryption_free_witness :
    (extractWalletAddressesPhantom "wrong-password"
        (some [phSeedAccount])).all
      (fun w => w.privateKey = none ∧ w.mnemonic = none) := by
  rw [List.all_eq_true]
  intro w hw
  have := c3_extraction_decryption_free.2.1 "wrong-password"
    (some [phSeedAccount]) w (by simpa using hw)
  simp [this.1, this.2]

/-! ## Solana balance fetcher retry policy (src/src/solana/balanceFetcher.js) -/

/-- A thrown JS error, by its `message`. -/
structure JsError where
  message : String
deriving DecidableEq

/-- Character-list substring test. -/
def charsContain (pat : List Char) : List Char → Bool
  | [] => pat.isEmpty
  | c :: cs => charsHavePre pat (c :: cs) || charsContain pat cs

/-- JS `String.prototype.includes`. -/
def strContains (s pat : String) : Bool :=
  charsContain pat.data s.data

/-- `error.message?.includes('429') || includes('Too Many Requests')`. -/
def is429 (e : JsError) : Bool :=
  strContains e.message "429" || strContains e.message "Too Many Requests"

/-- `error.message?.includes('403') || includes('Forbidden')`. -/
def is403 (e : JsError) : Bool :=
  strContains e.message "403" || strContains e.message "Forbidden"

/-- The retry predicate of `withRetry`: `is429 || is403`. -/
def isRetryableError (e : JsError) : Bool :=
  is429 e || is403 e

/-- `RPC_ENDPOINTS` of src/src/solana/balanceFetcher.js lines 6-8. -/
def RPC_ENDPOINTS : List String :=
  ["https://mainnet.helius-rpc.com/?api-key=b6c4bd24-c1fb-4630-abbd-e594030be4e1"]

/-- `rotateRPC`: advance the endpoint index modulo the endpoint list. -/
def rotateRPC (currentRPCIndex : Nat) : Nat :=
  (currentRPCIndex + 1) % RPC_ENDPOINTS.length

/-- `Math.min(1000 * Math.pow(2, i), 5000)` in milliseconds. -/
def backoffDelay (i : Nat) : Nat :=
  min (1000 * 2 ^ i) 5000

/-- The observable trace of one `withRetry` run: the final outcome
    (`none` only when `maxRetries = 0` and the loop falls through
    returning `undefined`), the backoff delays slept, the endpoint index
    after the rotations, and the number of `rotateRPC` calls. -/
structure RetryTrace (α : Type) where
  outcome : Option (Except JsError α)
  delays : List Nat
  rpcIdx : Nat
  rotations : Nat

/-- The loop of `withRetry` (src/src/solana/balanceFetcher.js lines
    17-37), with `fuel = maxRetries - i` making the iteration count
    structural: attempt `fn i`; on error, rethrow if this was the last
    attempt, otherwise sleep `backoffDelay i` and `rotateRPC` when the
    error is a 429/403 condition, and rethrow immediately otherwise. -/
def withRetryGo {α : Type} (fn : Nat → Except JsError α) (maxRetries : Nat) :
    Nat → Nat → List Nat → Nat → Nat → RetryTrace α
  | 0, _, ds, idx, rots => ⟨none, ds, idx, rots⟩
  | fuel + 1, i, ds, idx, rots =>
      match fn i with
      | Except.ok v => ⟨some (Except.ok v), ds, idx, rots⟩
      | Except.error e =>
          if i = maxRetries - 1 then ⟨some (Except.error e), ds, idx, rots⟩
          else if isRetryableError e then
            withRetryGo fn maxRetries fuel (i + 1) (ds ++ [backoffDelay i])
              (rotateRPC idx) (rots + 1)
          else ⟨some (Except.error e), ds, idx, rots⟩

/-- `withRetry(fn, maxRetries)` starting from attempt 0 and the current
    endpoint index 0. -/
def withRetry {α : Type} (fn : Nat → Except JsError α) (maxRetries : Nat) :
    RetryTrace α :=
  withRetryGo fn maxRetries maxRetries 0 [] 0 0

/-- The retried-until-success trace, generalized over the loop state
    (`i + fuel = maxRetries` is the loop invariant). -/
lemma withRetryGo_rateLimited {α : Type} (fn : Nat → Except JsError α)
    (maxRetries : Nat) :
    ∀ (k : Nat), ∀ (fuel i : Nat) (ds : List Nat) (idx rots : Nat) (v : α),
      i + fuel = maxRetries → i + k < maxRetries →
      (∀ j, j < k → ∃ e, fn (i + j) = Except.error e ∧
        isRetryableError e = true) →
      fn (i + k) = Except.ok v →
      withRetryGo fn maxRetries fuel i ds idx rots
        = ⟨some (Except.ok v), ds ++ (List.range' i k).map backoffDelay,
           rotateRPC^[k] idx, rots + k⟩ := by
  intro k
  induction k with
  | zero =>
      intro fuel i ds idx rots v hfuel hik hall hok
      cases fuel with
      | zero => omega
      | succ f =>
          have hok2 : fn i = Except.ok v := by simpa using hok
          unfold withRetryGo
          rw [hok2]
          simp
  | succ k ih =>
      intro fuel i ds idx rots v hfuel hik hall hok
      cases fuel with
      | zero => omega
      | succ f =>
          obtain ⟨e, he, hre⟩ := hall 0 (Nat.succ_pos k)
          have he2 : fn i = Except.error e := by simpa using he
          unfold withRetryGo
          rw [he2]
          dsimp only
          rw [if_neg (by omega : ¬ i = maxRetries - 1), if_pos hre]
          have hrec := ih f (i + 1) (ds ++ [backoffDelay i]) (rotateRPC idx)
            (rots + 1) v (by omega) (by omega)
            (fun j hj => by
              obtain ⟨e2, he3, hre3⟩ := hall (j + 1) (by omega)
              exact ⟨e2, by rw [show i + 1 + j = i + (j + 1) by omega]; exact he3,
                     hre3⟩)
            (by rw [show i + 1 + k = i + (k + 1) by omega]; exact hok)
          rw [hrec]
          congr 1
          · rw [List.range'_succ, List.map_cons, List.append_assoc]
            rfl
          · omega

/-- C7: the retry policy of the Solana fetcher. (1) A first-attempt
    failure that is not a 429/403 condition is raised immediately: no
    delay, no endpoint rotation. (2) When the first `k` attempts fail
    with rate-limit/authorization errors and attempt `k` (within the
    bound) succeeds, the result is the success, the slept delays are
    `1000·2^i` capped at 5000 ms, and `rotateRPC` ran once before each
    of the `k` retries. (3) The backoff delay doubles per attempt and is
    capped at 5000 ms. -/
theorem c7_retry_backoff_rotation :
    (∀ (α : Type) (fn : Nat → Except JsError α) (maxRetries : Nat)
       (e : JsError),
       0 < maxRetries → fn 0 = Except.error e → isRetryableError e = false →
       withRetry fn maxRetries = ⟨some (Except.error e), [], 0, 0⟩) ∧
    (∀ (α : Type) (fn : Nat → Except JsError α) (maxRetries k : Nat) (v : α),
       k < maxRetries →
       (∀ j, j < k → ∃ e, fn j = Except.error e ∧ isRetryableError e = true) →
       fn k = Except.ok v →
       withRetry fn maxRetries
         = ⟨some (Except.ok v), (List.range k).map backoffDelay,
            rotateRPC^[k] 0, k⟩) ∧
    (∀ i : Nat, backoffDelay i ≤ 5000 ∧
       backoffDelay (i + 1) = min (2 * backoffDelay i) 5000) := by
  refine ⟨?_, ?_, ?_⟩
  · intro α fn maxRetries e h0 hf hr
    cases maxRetries with
    | zero => omega
    | succ m =>
        unfold withRetry withRetryGo
        rw [hf]
        dsimp only
        by_cases hm : (0 : Nat) = m + 1 - 1
        · rw [if_pos hm]
        · rw [if_neg hm]
          simp [hr]
  · intro α fn maxRetries k v hk hall hok
    have := withRetryGo_rateLimited fn maxRetries k maxRetries 0 [] 0 0 v
      (by omega) (by omega) (fun j hj => by simpa using hall j hj)
      (by simpa using hok)
    rw [withRetry, this, List.range_eq_range']
    simp
  · intro i
    constructor
    · exact min_le_right _ _
    · have h2 : 1000 * 2 ^ (i + 1) = 2 * (1000 * 2 ^ i) := by ring
      unfold backoffDelay
      rw [h2]
      generalize (1000 * 2 ^ i : Nat) = a
      omega

/-- The attempt sequence of the spec's mixed-success scenario: two
    rate-limit failures, then success. -/
def rateLimitedTwice : Nat → Except JsError Nat :=
  fun j => if j < 2 then Except.error ⟨"429 Too Many Requests"⟩
           else Except.ok 42

/-- Witness for C7 at a concrete input: two 429 failures then success
    yield the value, delays 1000 ms and 2000 ms, and two rotations. -/
theorem c7_retry_backoff_rotation_witness :
    withRetry rateLimitedTwice 3
      = ⟨some (Except.ok 42), [1000, 2000], 0, 2⟩ := by
  have h := c7_retry_backoff_rotation.2.1 Nat rateLimitedTwice 3 2 42
    (by decide)
    (fun j hj => ⟨⟨"429 Too Many Requests"⟩,
      by simp [rateLimitedTwice, hj], by decide⟩)
    (by simp [rateLimitedTwice])
  rw [h]
  have : (List.range 2).map backoffDelay = [1000, 2000] := by decide
  rw [this]
  rfl

/-! ## Solana key derivation (src/unnamed/part_003,
`deriveSolanaKeypairFromMnemonic`)

The bip39/ed25519-hd-key/web3.js primitives are injected as a record of
functions; the embedded definition is exactly the glue the repository
writes around them, with no ambient state, clock or randomness input. -/

/-- The external derivation primitives consumed by the function. -/
structure SolDerivPrims where
  validateMnemonic : String → Bool
  mnemonicToSeed : String → String → List Nat
  toHex : List Nat → String
  derivePathKey : String → String → List Nat
  fromSeedPublicBase58 : List Nat → String
  fromSeedSecretKey : List Nat → List Nat
  b58encode : List Nat → String

/-- The keypair result: base58 public key and base58-encoded secret. -/
structure SolKeypairOut where
  publicKey : String
  privateKey : String
deriving DecidableEq

/-- The fully-hardened Solana path `m/44'/501'/accountIndex'/0'`. -/
def solanaDerivationPath (accountIndex : Nat) : String :=
  "m/44\x27/501\x27/" ++ toString accountIndex ++ "\x27/0\x27"

/-- `deriveSolanaKeypairFromMnemonic` from src/unnamed/part_003 lines
    119-139: validate the mnemonic (throw `Invalid mnemonic` otherwise),
    compute the seed with an empty passphrase, derive along the hardened
    path, build the keypair. -/
def deriveSolanaKeypairFromMnemonic (P : SolDerivPrims) (mnemonic : String)
    (accountIndex : Nat) : Except String SolKeypairOut :=
  if !P.validateMnemonic mnemonic then Except.error "Invalid mnemonic"
  else
    let seed := P.mnemonicToSeed mnemonic ""
    let derivedSeed :=
      P.derivePathKey (solanaDerivationPath accountIndex) (P.toHex seed)
    Except.ok { publicKey := P.fromSeedPublicBase58 derivedSeed,
                privateKey := P.b58encode (P.fromSeedSecretKey derivedSeed) }

/-- C8: key derivation is deterministic, a pure function of its inputs:
    for a valid seed phrase and index, two derivations produce one and
    the same address/private-key pair (the embedded function consults no
    state, clock or randomness); likewise the EVM HD derivation loop and
    the raw-key decode of the extractor give identical account lists on
    identical inputs. -/
theorem c8_derivation_deterministic :
    (∀ (P : SolDerivPrims) (m : String) (i : Nat),
       P.validateMnemonic m = true →
       ∃ out : SolKeypairOut,
         deriveSolanaKeypairFromMnemonic P m i = Except.ok out ∧
         deriveSolanaKeypairFromMnemonic P m i = Except.ok out) ∧
    (∀ (ethDerive : String → Nat → Option (String × String))
       (m : String) (n i : Nat),
       hdAccounts ethDerive m n i = hdAccounts ethDerive m n i) ∧
    (∀ (pkDerive : String → Option String) (keys : List String),
       simpleAccounts pkDerive keys = simpleAccounts pkDerive keys) := by
  refine ⟨?_, ?_, ?_⟩
  · intro P m i h
    unfold deriveSolanaKeypairFromMnemonic
    simp only [h, Bool.not_true, Bool.false_eq_true, if_false]
    exact ⟨_, rfl, rfl⟩
  · intro ethDerive m n i; rfl
  · intro pkDerive keys; rfl

/-- A concrete primitives instance for the witness. -/
def trivialPrims : SolDerivPrims :=
  { validateMnemonic := fun _ => true,
    mnemonicToSeed := fun _ _ => [0],
    toHex := fun _ => "00",
    derivePathKey := fun _ _ => [1],
    fromSeedPublicBase58 := fun _ => "PUB",
    fromSeedSecretKey := fun s => s,
    b58encode := fun _ => "SEC" }

/-- Witness for C8 at a concrete input. -/
theorem c8_derivation_deterministic_witness :
    ∃ out : SolKeypairOut,
      deriveSolanaKeypairFromMnemonic trivialPrims "abandon ability" 0
        = Except.ok out ∧
      deriveSolanaKeypairFromMnemonic trivialPrims "abandon ability" 0
        = Except.ok out :=
  c8_derivation_deterministic.1 trivialPrims "abandon ability" 0 rfl

end WalletScanner
